import Mathlib

/-!
Verification of the route-construction core of the serverless-operator
ingress reconciler, a shallow embedding of
`src/serving/ingress/pkg/reconciler/ingress/resources/route.go`.

Go maps of strings are modelled as association lists (`SMap`); a `nil`
map is distinguished from an empty one with `Option SMap` where the
source distinguishes them.  Go's in-place mutation of the ingress's
annotation map is modelled by threading the ingress value: every
function that can mutate it returns the updated ingress alongside its
result.
-/

set_option maxRecDepth 10000

namespace RouteGo

/-- Association-list model of Go's `map[string]string`. -/
abbrev SMap := List (String × String)

/-- Map lookup: `m[k]` (first binding wins; well-formed maps bind each key once). -/
def SMap.get : SMap → String → Option String
  | [], _ => none
  | p :: ps, k => if p.1 = k then some p.2 else SMap.get ps k

/-- Remove every binding of key `k`. -/
def SMap.eraseKey : SMap → String → SMap
  | [], _ => []
  | p :: ps, k => if p.1 = k then SMap.eraseKey ps k else p :: SMap.eraseKey ps k

/-- Map update `m[k] = v`. -/
def SMap.set (m : SMap) (k v : String) : SMap :=
  m.eraseKey k ++ [(k, v)]

/-- Modelled from the spec: `kmeta.UnionMaps` (knative.dev/pkg, outside this
repository) returns a fresh map holding the union of its arguments, entries of
later arguments winning on key collision. -/
def unionMaps (a b : SMap) : SMap :=
  b.foldl (fun acc p => acc.set p.1 p.2) a

/-! ### SHA-256 and hex encoding

`hashHost` (route.go:150-152) computes `fmt.Sprintf("%x", sha256.Sum256([]byte(host)))[0:6]`.
The digest is modelled bit-exactly over `Nat` with explicit `% 2^32` wrapping. -/

/-- Truncate to 32 bits. -/
def w32 (n : Nat) : Nat := n % 4294967296

/-- 32-bit right rotation (argument assumed < 2^32). -/
def rotr32 (n x : Nat) : Nat := w32 ((x >>> n) ||| (x <<< (32 - n)))

/-- The eight 32-bit words of a SHA-256 state. -/
structure Hash8 where
  (a b c d e f g h : Nat)

/-- SHA-256 round constants (FIPS 180-4, written in decimal). -/
def sha256K : List Nat :=
  [1116352408, 1899447441, 3049323471, 3921009573,
   961987163, 1508970993, 2453635748, 2870763221,
   3624381080, 310598401, 607225278, 1426881987,
   1925078388, 2162078206, 2614888103, 3248222580,
   3835390401, 4022224774, 264347078, 604807628,
   770255983, 1249150122, 1555081692, 1996064986,
   2554220882, 2821834349, 2952996808, 3210313671,
   3336571891, 3584528711, 113926993, 338241895,
   666307205, 773529912, 1294757372, 1396182291,
   1695183700, 1986661051, 2177026350, 2456956037,
   2730485921, 2820302411, 3259730800, 3345764771,
   3516065817, 3600352804, 4094571909, 275423344,
   430227734, 506948616, 659060556, 883997877,
   958139571, 1322822218, 1537002063, 1747873779,
   1955562222, 2024104815, 2227730452, 2361852424,
   2428436474, 2756734187, 3204031479, 3329325298]

/-- SHA-256 initial state (FIPS 180-4, written in decimal). -/
def sha256IV : Hash8 :=
  ⟨1779033703, 3144134277, 1013904242, 2773480762,
   1359893119, 2600822924, 528734635, 1541459225⟩

/-- Big-endian 8-byte encoding. -/
def be64 (n : Nat) : List Nat :=
  [(n >>> 56) % 256, (n >>> 48) % 256, (n >>> 40) % 256, (n >>> 32) % 256,
   (n >>> 24) % 256, (n >>> 16) % 256, (n >>> 8) % 256, n % 256]

/-- SHA-256 padding: 0x80, zeros to 56 mod 64, then the bit length. -/
def bePad (msg : List Nat) : List Nat :=
  msg ++ [128] ++ List.replicate ((119 - msg.length % 64) % 64) 0 ++ be64 (8 * msg.length)

/-- Group bytes into big-endian 32-bit words. -/
def toWords : List Nat → List Nat
  | a :: b :: c :: d :: rest => (((a * 256 + b) * 256 + c) * 256 + d) :: toWords rest
  | _ => []

/-- Extend a 16-word block to the 64-word message schedule. -/
def extendSchedule (ws : List Nat) : List Nat :=
  (List.range 48).foldl (fun w i =>
    let x1 := w.getD (i + 1) 0
    let x2 := w.getD (i + 14) 0
    let s0 := (rotr32 7 x1) ^^^ (rotr32 18 x1) ^^^ (x1 >>> 3)
    let s1 := (rotr32 17 x2) ^^^ (rotr32 19 x2) ^^^ (x2 >>> 10)
    w ++ [w32 (w.getD i 0 + s0 + w.getD (i + 9) 0 + s1)]) ws

/-- One SHA-256 compression round; `kw` is K[i] + W[i]. -/
def sha256Round (s : Hash8) (kw : Nat) : Hash8 :=
  let S1 := (rotr32 6 s.e) ^^^ (rotr32 11 s.e) ^^^ (rotr32 25 s.e)
  let ch := (s.e &&& s.f) ^^^ ((s.e ^^^ 4294967295) &&& s.g)
  let temp1 := w32 (s.h + S1 + ch + kw)
  let S0 := (rotr32 2 s.a) ^^^ (rotr32 13 s.a) ^^^ (rotr32 22 s.a)
  let maj := (s.a &&& s.b) ^^^ (s.a &&& s.c) ^^^ (s.b &&& s.c)
  let temp2 := w32 (S0 + maj)
  ⟨w32 (temp1 + temp2), s.a, s.b, s.c, w32 (s.d + temp1), s.e, s.f, s.g⟩

/-- Compress one 16-word block into the state. -/
def sha256Compress (st : Hash8) (block : List Nat) : Hash8 :=
  let w := extendSchedule block
  let s := (List.range 64).foldl (fun s i => sha256Round s (sha256K.getD i 0 + w.getD i 0)) st
  ⟨w32 (st.a + s.a), w32 (st.b + s.b), w32 (st.c + s.c), w32 (st.d + s.d),
   w32 (st.e + s.e), w32 (st.f + s.f), w32 (st.g + s.g), w32 (st.h + s.h)⟩

/-- Fold the compression function over all 16-word blocks. -/
def processBlocks (st : Hash8) (ws : List Nat) : Hash8 :=
  if hne : ws = [] then st
  else processBlocks (sha256Compress st (ws.take 16)) (ws.drop 16)
termination_by ws.length
decreasing_by
  rw [List.length_drop]
  have hpos : 0 < ws.length := List.length_pos.mpr hne
  omega

/-- Big-endian bytes of a 32-bit word. -/
def wordBE (w : Nat) : List Nat :=
  [(w >>> 24) % 256, (w >>> 16) % 256, (w >>> 8) % 256, w % 256]

/-- SHA-256 digest (32 bytes); models `crypto/sha256.Sum256`. -/
def sha256 (msg : List Nat) : List Nat :=
  let st := processBlocks sha256IV (toWords (bePad msg))
  wordBE st.a ++ wordBE st.b ++ wordBE st.c ++ wordBE st.d ++
  wordBE st.e ++ wordBE st.f ++ wordBE st.g ++ wordBE st.h

/-- UTF-8 encoding of one code point. -/
def utf8EncodeCharNat (n : Nat) : List Nat :=
  if n < 128 then [n]
  else if n < 2048 then [192 + n / 64, 128 + n % 64]
  else if n < 65536 then [224 + n / 4096, 128 + (n / 64) % 64, 128 + n % 64]
  else [240 + n / 262144, 128 + (n / 4096) % 64, 128 + (n / 64) % 64, 128 + n % 64]

/-- UTF-8 bytes of a string; models Go's `[]byte(s)`. -/
def utf8Bytes (s : String) : List Nat := s.data.flatMap (fun c => utf8EncodeCharNat c.toNat)

/-- The sixteen lowercase hex digits. -/
def hexDigitChars : List Char := ("0123456789abcdef").data

/-- Hex digit for a nibble. -/
def hexChar (n : Nat) : Char := hexDigitChars.getD n '0'

/-- Lowercase hex encoding of a byte sequence; models fmt's %x verb on bytes. -/
def hexOfBytes (bs : List Nat) : List Char :=
  bs.flatMap (fun b => [hexChar (b / 16), hexChar (b % 16)])

/-- Go `fmt.Sprintf("%x", s)` for a string `s`: hex of its UTF-8 bytes. -/
def goHexOfString (s : String) : String := String.mk (hexOfBytes (utf8Bytes s))

/-- route.go:150-152: `fmt.Sprintf("%x", sha256.Sum256([]byte(host)))[0:6]` —
the first 6 characters of the hex-encoded digest (the digest is ASCII hex, so
the Go byte slice `[0:6]` is the first 6 characters). -/
def hashHost (host : String) : String :=
  String.mk ((hexOfBytes (sha256 (utf8Bytes host))).take 6)

/-- route.go:146-148: `fmt.Sprintf("route-%s-%x", uid, hashHost(host))`.
Note the `%x` verb is applied to the string returned by `hashHost`, so that
string is hex-encoded a second time. -/
def routeName (uid host : String) : String :=
  "route-" ++ uid ++ "-" ++ goHexOfString (hashHost host)

/-! ### Data model

Field names follow the Go types; `ObjectMeta` and the route's `Spec` are
inlined into `Ingress` and `Route`.  The ingress's annotation map is
`Option SMap` because the source distinguishes a nil map (route.go:66). -/

structure HTTPIngressPath where
  DeprecatedTimeout : Option Nat
  deriving DecidableEq

structure HTTPIngressRuleValue where
  Paths : List HTTPIngressPath
  deriving DecidableEq

structure IngressRule where
  Hosts : List String
  Visibility : String
  HTTP : Option HTTPIngressRuleValue
  deriving DecidableEq

structure LoadBalancerIngressStatus where
  DomainInternal : String
  deriving DecidableEq

structure LoadBalancerStatus where
  Ingress : List LoadBalancerIngressStatus
  deriving DecidableEq

structure IngressStatus where
  PublicLoadBalancer : Option LoadBalancerStatus
  deriving DecidableEq

structure IngressSpec where
  Rules : List IngressRule
  deriving DecidableEq

structure Ingress where
  Name : String
  UID : String
  Labels : SMap
  Annotations : Option SMap
  Spec : IngressSpec
  Status : IngressStatus
  deriving DecidableEq

structure RoutePort where
  TargetPort : String
  deriving DecidableEq

structure RouteTargetReference where
  Kind : String
  Name : String
  Weight : Option Int
  deriving DecidableEq

structure TLSConfig where
  Termination : String
  InsecureEdgeTerminationPolicy : String
  deriving DecidableEq

structure Route where
  Name : String
  Namespace : String
  Labels : SMap
  Annotations : SMap
  Host : String
  Port : Option RoutePort
  To : RouteTargetReference
  TLS : Option TLSConfig
  WildcardPolicy : String
  deriving DecidableEq

/-- The only error value route.go can return. -/
inductive RouteError where
  | noValidLoadbalancerDomain
  deriving DecidableEq

/-- route.go:29: `ErrNoValidLoadbalancerDomain`. -/
def ErrNoValidLoadbalancerDomain : RouteError := .noValidLoadbalancerDomain

/-- route.go:20 (source constant name: the timeout annotation). -/
def TimeoutAnnotationKey : String := "haproxy.router.openshift.io/timeout"

/-- route.go:21 (source constant name: the route-disable annotation). -/
def DisableRouteAnnotationKey : String := "serving.knative.openshift.io/disableRoute"

/-- route.go:22. -/
def KourierHTTPPort : String := "http2"

/-- knative networking constant compared at route.go:37 and route.go:71. -/
def IngressVisibilityClusterLocal : String := "ClusterLocal"

/-- Modelled from the spec: the well-known "ingress name" label key written at
route.go:94-96 (`networking.IngressLabelKey`, defined outside this repository). -/
def IngressLabelKey : String := "networking.internal.knative.dev/ingress"

/-- openshift route API constant used at route.go:137. -/
def TLSTerminationEdge : String := "edge"

/-- openshift route API constant used at route.go:138. -/
def InsecureEdgeTerminationPolicyAllow : String := "Allow"

/-- openshift route API constant used at route.go:140. -/
def WildcardPolicyNone : String := "None"

/-- Modelled from the spec: the process-wide default timeout string of
route.go:25, `fmt.Sprintf("%vs", config.DefaultMaxRevisionTimeoutSeconds)`,
where the configured default max revision timeout (in seconds) comes from a
package outside this repository and is passed here as the parameter `dts`. -/
def defaultTimeout (dts : Nat) : String := toString dts ++ "s"

/-- route.go:86: `fmt.Sprintf("%vs", d.Duration.Seconds())` for a duration of
`d` nanoseconds.  Go formats the float64 `Seconds()`; for durations that are a
whole number of seconds `%v` prints that integer, which this models exactly
(theorems about it assume whole-second durations). -/
def durationSecondsString (d : Nat) : String := toString (d / 1000000000) ++ "s"

/-- Split a character list at every occurrence of `sep`, keeping empty
segments; the empty list gives one empty segment. -/
def splitOnChar (sep : Char) : List Char → List (List Char)
  | [] => [[]]
  | c :: rest =>
    let r := splitOnChar sep rest
    if c = sep then [] :: r
    else
      match r with
      | [] => [[c]]
      | g :: gs => (c :: g) :: gs

/-- Go's `strings.Split(s, ".")` (route.go:46 and route.go:106): the segments
of `s` between dots, empty segments kept, `[""]` for the empty string. -/
def goSplitDot (s : String) : List String := (splitOnChar '.' s.data).map String.mk

/-- route.go:65-68: `ci.GetAnnotations()`, defaulted to a fresh empty map when nil. -/
def annotationsOrEmpty (ci : Ingress) : SMap := ci.Annotations.getD []

/-- route.go:80-91: one timeout-annotation write per HTTP path (last write wins). -/
def applyTimeouts (dts : Nat) (paths : List HTTPIngressPath) (ann : SMap) : SMap :=
  paths.foldl (fun ann p =>
    match p.DeprecatedTimeout with
    | some d => ann.set TimeoutAnnotationKey (durationSecondsString d)
    | none => ann.set TimeoutAnnotationKey (defaultTimeout dts)) ann

/-- The annotation map after the loop of route.go:80-92 (unchanged when the
rule has no HTTP block). -/
def mutatedAnnotations (dts : Nat) (ci : Ingress) (rule : IngressRule) : SMap :=
  match rule.HTTP with
  | some http => applyTimeouts dts http.Paths (annotationsOrEmpty ci)
  | none => annotationsOrEmpty ci

/-- In the source the timeout writes of route.go:86/88 mutate the ingress's own
annotation map in place (`GetAnnotations` hands out the map by reference); when
the map was nil, route.go:67 made a fresh local map and the ingress stays
untouched.  Threading the ingress value through every call records this. -/
def commitAnnotations (ci : Ingress) (ann : SMap) : Ingress :=
  if ci.Annotations.isSome then { ci with Annotations := some ann } else ci

/-- route.go:102-112: scan of the public load-balancer endpoints; every
endpoint is visited (no break), so the last qualifying endpoint wins. -/
def resolveLB (endpoints : List LoadBalancerIngressStatus) : String × String :=
  endpoints.foldl (fun acc lbi =>
    if lbi.DomainInternal ≠ "" then
      let parts := goSplitDot lbi.DomainInternal
      if parts.length > 2 ∧ parts.getD 2 ("") = "svc" then
        (parts.getD 0 (""), parts.getD 1 (""))
      else acc
    else acc) ("", "")

/-- route.go:99-113: (serviceName, namespace) resolved from the status; both
empty when there is no public load balancer. -/
def resolveBackend (st : IngressStatus) : String × String :=
  match st.PublicLoadBalancer with
  | some lb => resolveLB lb.Ingress
  | none => ("", "")

/-- route.go:119-142: the constructed route. -/
def newRoute (ci : Ingress) (host : String) (ann : SMap) (serviceName namespaceName : String) :
    Route :=
  { Name := routeName ci.UID host
    Namespace := namespaceName
    Labels := unionMaps ci.Labels [(IngressLabelKey, ci.Name)]
    Annotations := ann
    Host := host
    Port := some ⟨KourierHTTPPort⟩
    To := { Kind := "Service", Name := serviceName, Weight := some 100 }
    TLS := some { Termination := TLSTerminationEdge,
                  InsecureEdgeTerminationPolicy := InsecureEdgeTerminationPolicyAllow }
    WildcardPolicy := WildcardPolicyNone }

/-- route.go:63-144: `makeRoute`.  Returns the Go pair `(route, err)` — skip is
`(nil, nil)` — together with the (possibly mutated) ingress. -/
def makeRoute (dts : Nat) (ci : Ingress) (host : String) (rule : IngressRule) :
    (Option Route × Option RouteError) × Ingress :=
  if rule.Visibility = IngressVisibilityClusterLocal then
    ((none, none), ci)
  else if ((annotationsOrEmpty ci).get DisableRouteAnnotationKey).isSome then
    ((none, none), ci)
  else
    let ann := mutatedAnnotations dts ci rule
    let ci' := commitAnnotations ci ann
    if (resolveBackend ci.Status).1 = "" ∨ (resolveBackend ci.Status).2 = "" then
      ((none, some ErrNoValidLoadbalancerDomain), ci')
    else
      ((some (newRoute ci host ann (resolveBackend ci.Status).1 (resolveBackend ci.Status).2),
        none), ci')

/-- route.go:40-57: the inner host loop of `MakeRoutes`; `return nil, err`
aborts everything, a nil route is skipped, otherwise the route is appended. -/
def processHosts (dts : Nat) (rule : IngressRule) (hosts : List String) (ci : Ingress)
    (routes : List Route) : Except RouteError (List Route) × Ingress :=
  match hosts with
  | [] => (.ok routes, ci)
  | host :: hs =>
    let parts := goSplitDot host
    if parts.length > 2 ∧ parts.getD 2 ("") ≠ "svc" then
      match makeRoute dts ci host rule with
      | ((_, some e), ci') => (.error e, ci')
      | ((none, none), ci') => processHosts dts rule hs ci' routes
      | ((some r, none), ci') => processHosts dts rule hs ci' (routes ++ [r])
    else
      processHosts dts rule hs ci routes

/-- route.go:35-58: the rule loop of `MakeRoutes`; cluster-local rules are
skipped (route.go:37-39). -/
def processRules (dts : Nat) (rules : List IngressRule) (ci : Ingress)
    (routes : List Route) : Except RouteError (List Route) × Ingress :=
  match rules with
  | [] => (.ok routes, ci)
  | rule :: rs =>
    if rule.Visibility = IngressVisibilityClusterLocal then
      processRules dts rs ci routes
    else
      match processHosts dts rule rule.Hosts ci routes with
      | (.ok routes', ci') => processRules dts rs ci' routes'
      | (.error e, ci') => (.error e, ci')

/-- route.go:32-61: `MakeRoutes`.  The Go return pair is kept: `(nil, err)` on
the first error (route.go:50), `(routes, nil)` otherwise (route.go:60). -/
def MakeRoutes (dts : Nat) (ci : Ingress) : (Option (List Route) × Option RouteError) × Ingress :=
  match processRules dts ci.Spec.Rules ci [] with
  | (.ok routes, ci') => ((some routes, none), ci')
  | (.error e, ci') => ((none, some e), ci')

/-! ### Spec-level reference definitions (for the refinement claims) -/

/-- Spec §4.1 step 2: a host is external when its dot-split has more than two
segments and the third is not the literal "svc". -/
def externalHost (host : String) : Prop :=
  (goSplitDot host).length > 2 ∧ (goSplitDot host).getD 2 ("") ≠ "svc"

instance (host : String) : Decidable (externalHost host) := by
  unfold externalHost; infer_instance

/-- Spec §4.1 steps 1-2: the qualifying (rule, host) pairs, in rule and host
order — hosts of non-cluster-local rules that pass the external-host test. -/
def qualifyingPairs (rules : List IngressRule) : List (IngressRule × String) :=
  rules.flatMap (fun rule =>
    if rule.Visibility = IngressVisibilityClusterLocal then []
    else (rule.Hosts.filter (fun h => decide (externalHost h))).map (fun h => (rule, h)))

/-- Spec §4.1 steps 3-4: fail-fast fold of the route factory over a pair list,
collecting produced routes in order and aborting on the first error. -/
def runPairs (dts : Nat) (pairs : List (IngressRule × String)) (ci : Ingress)
    (routes : List Route) : Except RouteError (List Route) × Ingress :=
  match pairs with
  | [] => (.ok routes, ci)
  | p :: ps =>
    match makeRoute dts ci p.2 p.1 with
    | ((_, some e), ci') => (.error e, ci')
    | ((none, none), ci') => runPairs dts ps ci' routes
    | ((some r, none), ci') => runPairs dts ps ci' (routes ++ [r])

/-- Spec-level reference for `MakeRoutes`: either the complete ordered route
list of the qualifying hosts, or the first error together with a nil list. -/
def makeRoutesSpec (dts : Nat) (ci : Ingress) :
    (Option (List Route) × Option RouteError) × Ingress :=
  match runPairs dts (qualifyingPairs ci.Spec.Rules) ci [] with
  | (.ok routes, ci') => ((some routes, none), ci')
  | (.error e, ci') => ((none, some e), ci')

/-- The timeout-annotation value contributed by one HTTP path
(route.go:82-89). -/
def pathTimeoutString (dts : Nat) (p : HTTPIngressPath) : String :=
  match p.DeprecatedTimeout with
  | some d => durationSecondsString d
  | none => defaultTimeout dts

/-! ### State threading: what route.go may change in the ingress -/

/-- The only state change route.go ever makes to the ingress it is given: all
fields other than the annotation map are untouched, the map's nil-ness is
preserved, and in the map every key other than the timeout key is untouched. -/
def annUpdateOnly (ci ci' : Ingress) : Prop :=
  ci'.Name = ci.Name ∧ ci'.UID = ci.UID ∧ ci'.Labels = ci.Labels ∧
  ci'.Spec = ci.Spec ∧ ci'.Status = ci.Status ∧
  ci'.Annotations.isSome = ci.Annotations.isSome ∧
  ∀ k, k ≠ TimeoutAnnotationKey →
    (annotationsOrEmpty ci').get k = (annotationsOrEmpty ci).get k

/-! ### Concrete example inputs used by counterexamples and witnesses -/

def c2Rule : IngressRule :=
  { Hosts := ["a.b.c"], Visibility := "ExternalIP", HTTP := some ⟨[⟨some 600000000000⟩]⟩ }

def c2Ci : Ingress :=
  { Name := "ing2", UID := "u2", Labels := [], Annotations := some [("k", "v")],
    Spec := ⟨[c2Rule]⟩, Status := ⟨none⟩ }

def c2CiNil : Ingress :=
  { Name := "ing2n", UID := "u2n", Labels := [], Annotations := none,
    Spec := ⟨[c2Rule]⟩, Status := ⟨none⟩ }

def c3Rule : IngressRule :=
  { Hosts := ["h.example.com"], Visibility := "ExternalIP", HTTP := none }

def c3Ci : Ingress :=
  { Name := "ing3", UID := "u3", Labels := [], Annotations := none,
    Spec := ⟨[c3Rule]⟩,
    Status := ⟨some ⟨[⟨"a.b.svc.x"⟩, ⟨".b.svc.x"⟩]⟩⟩ }

def c3GoodCi : Ingress :=
  { Name := "ing3b", UID := "u3b", Labels := [], Annotations := none,
    Spec := ⟨[c3Rule]⟩,
    Status := ⟨some ⟨[⟨"kourier.knative-serving-ingress.svc.cluster.local"⟩]⟩⟩ }

def c5Rule : IngressRule :=
  { Hosts := ["a.b.c", "m.n.svc.x", "x.y"], Visibility := "ExternalIP", HTTP := none }

def c5Ci : Ingress :=
  { Name := "ing5", UID := "u5", Labels := [], Annotations := none,
    Spec := ⟨[c5Rule]⟩, Status := ⟨some ⟨[⟨"kourier.ns.svc.cluster.local"⟩]⟩⟩ }

def c6RuleCL : IngressRule :=
  { Hosts := ["w.x.y"], Visibility := "ClusterLocal", HTTP := none }

def c6CiCL : Ingress :=
  { Name := "ing6", UID := "u6", Labels := [], Annotations := none,
    Spec := ⟨[c6RuleCL]⟩, Status := ⟨none⟩ }

def c6CiDis : Ingress :=
  { Name := "ing6d", UID := "u6d", Labels := [],
    Annotations := some [("serving.knative.openshift.io/disableRoute", "true")],
    Spec := ⟨[{ Hosts := ["w.x.y"], Visibility := "ExternalIP", HTTP := none }]⟩,
    Status := ⟨none⟩ }

def c7Hv : HTTPIngressRuleValue := ⟨[⟨some 600000000000⟩]⟩

def c7Rule : IngressRule :=
  { Hosts := ["a.b.c"], Visibility := "ExternalIP", HTTP := some c7Hv }

def c7Ci : Ingress :=
  { Name := "ing7", UID := "u7", Labels := [], Annotations := none,
    Spec := ⟨[c7Rule]⟩, Status := ⟨some ⟨[⟨"kourier.ns.svc.cluster.local"⟩]⟩⟩ }

def c7Route : Route :=
  ((makeRoute 600 c7Ci ("a.b.c") c7Rule).1.1).getD (newRoute c7Ci ("a.b.c") [] "" "")

def c8Rule : IngressRule :=
  { Hosts := ["foo.example.com"], Visibility := "ExternalIP", HTTP := none }

def c8Ci : Ingress :=
  { Name := "ing8", UID := "abc123", Labels := [("app", "demo")],
    Annotations := none, Spec := ⟨[c8Rule]⟩,
    Status := ⟨some ⟨[⟨"kourier.ns.svc.cluster.local"⟩]⟩⟩ }

def c8Route : Route :=
  ((makeRoute 600 c8Ci ("foo.example.com") c8Rule).1.1).getD
    (newRoute c8Ci ("foo.example.com") [] "" "")

def c9Hv : HTTPIngressRuleValue := ⟨[⟨some 600000000000⟩, ⟨none⟩]⟩

def c9Rule : IngressRule :=
  { Hosts := ["a.b.c"], Visibility := "ExternalIP", HTTP := some c9Hv }

def c9Ci : Ingress :=
  { Name := "ing9", UID := "u9", Labels := [], Annotations := none,
    Spec := ⟨[c9Rule]⟩, Status := ⟨some ⟨[⟨"kourier.ns.svc.cluster.local"⟩]⟩⟩ }

def c9Route : Route :=
  ((makeRoute 600 c9Ci ("a.b.c") c9Rule).1.1).getD (newRoute c9Ci ("a.b.c") [] "" "")

def c10Ci : Ingress :=
  { Name := "ing10", UID := "u10", Labels := [], Annotations := none,
    Spec := ⟨[{ Hosts := ["foo.com"], Visibility := "ExternalIP", HTTP := none }]⟩,
    Status := ⟨none⟩ }

def c10CiMix : Ingress :=
  { Name := "ing10m", UID := "u10m", Labels := [], Annotations := none,
    Spec := ⟨[{ Hosts := ["foo.com", "a.b.c"], Visibility := "ExternalIP", HTTP := none }]⟩,
    Status := ⟨some ⟨[⟨"kourier.ns.svc.cluster.local"⟩]⟩⟩ }

def c10Route : Route :=
  ((MakeRoutes 600 c10CiMix).1.1.getD []).getD 0 (newRoute c10CiMix ("a.b.c") [] "" "")

/-! ## Theorems -/

@[simp] theorem SMap.get_nil (k : String) : SMap.get [] k = none := rfl

theorem SMap.get_eraseKey_ne (m : SMap) (k k' : String) (h : k' ≠ k) :
    (m.eraseKey k).get k' = m.get k' := by
  induction m with
  | nil => rfl
  | cons p ps ih =>
    by_cases hp : p.1 = k
    · simp [SMap.eraseKey, SMap.get, hp, ih, Ne.symm h]
    · simp [SMap.eraseKey, SMap.get, hp, ih]

theorem SMap.get_eraseKey_same (m : SMap) (k : String) :
    (m.eraseKey k).get k = none := by
  induction m with
  | nil => rfl
  | cons p ps ih =>
    by_cases hp : p.1 = k
    · simp [SMap.eraseKey, hp, ih]
    · simp [SMap.eraseKey, SMap.get, hp, ih]

theorem SMap.get_append (m₁ m₂ : SMap) (k : String) :
    SMap.get (m₁ ++ m₂) k = (m₁.get k).orElse (fun _ => m₂.get k) := by
  induction m₁ with
  | nil => simp [SMap.get, Option.orElse]
  | cons p ps ih =>
    by_cases hp : p.1 = k
    · simp [SMap.get, hp, Option.orElse]
    · simp [SMap.get, hp, ih]

theorem SMap.get_set_same (m : SMap) (k v : String) :
    (m.set k v).get k = some v := by
  unfold SMap.set
  rw [SMap.get_append, SMap.get_eraseKey_same]
  simp [SMap.get, Option.orElse]

theorem SMap.get_set_ne (m : SMap) (k v k' : String) (h : k' ≠ k) :
    (m.set k v).get k' = m.get k' := by
  unfold SMap.set
  rw [SMap.get_append, SMap.get_eraseKey_ne m k k' h]
  cases hg : m.get k' with
  | none => simp [Option.orElse, SMap.get, Ne.symm h]
  | some v' => simp [Option.orElse]

theorem SMap.eraseKey_append (m₁ m₂ : SMap) (k : String) :
    (m₁ ++ m₂).eraseKey k = m₁.eraseKey k ++ m₂.eraseKey k := by
  induction m₁ with
  | nil => rfl
  | cons p ps ih =>
    by_cases hp : p.1 = k
    · simp [SMap.eraseKey, hp, ih]
    · simp [SMap.eraseKey, hp, ih]

theorem SMap.eraseKey_idem (m : SMap) (k : String) :
    (m.eraseKey k).eraseKey k = m.eraseKey k := by
  induction m with
  | nil => rfl
  | cons p ps ih =>
    by_cases hp : p.1 = k
    · simp [SMap.eraseKey, hp, ih]
    · simp [SMap.eraseKey, hp, ih]

theorem SMap.set_set_same (m : SMap) (k v v' : String) :
    (m.set k v).set k v' = m.set k v' := by
  show (m.eraseKey k ++ [(k, v)]).eraseKey k ++ [(k, v')] = m.eraseKey k ++ [(k, v')]
  rw [SMap.eraseKey_append, SMap.eraseKey_idem]
  simp [SMap.eraseKey]

/-! ### Generic helper lemmas -/

theorem getD_mem_or_eq {α : Type} (l : List α) (n : Nat) (d : α) :
    l.getD n d ∈ l ∨ l.getD n d = d := by
  induction l generalizing n with
  | nil => right; simp [List.getD]
  | cons a as ih =>
    cases n with
    | zero => left; simp [List.getD]
    | succ m =>
      rcases ih m with h | h
      · left; exact List.mem_cons_of_mem a (by simpa [List.getD] using h)
      · right; simpa [List.getD] using h

theorem strMk_length (l : List Char) : (String.mk l).length = l.length := rfl

theorem strLength_append (s t : String) : (s ++ t).length = s.length + t.length := by
  cases s with
  | mk a =>
    cases t with
    | mk b =>
      show (a ++ b).length = a.length + b.length
      exact List.length_append a b

/-! ### Lemmas about the hashing pipeline -/

theorem hexChar_mem (n : Nat) : hexChar n ∈ hexDigitChars := by
  rcases getD_mem_or_eq hexDigitChars n '0' with h | h
  · exact h
  · rw [hexChar, h]; decide

theorem mem_of_mem_hexOfBytes {c : Char} {bs : List Nat} (h : c ∈ hexOfBytes bs) :
    c ∈ hexDigitChars := by
  rw [hexOfBytes, List.mem_flatMap] at h
  rcases h with ⟨b, _, hc⟩
  simp only [List.mem_cons, List.not_mem_nil, or_false] at hc
  rcases hc with rfl | rfl
  · exact hexChar_mem _
  · exact hexChar_mem _

theorem hexOfBytes_length (bs : List Nat) : (hexOfBytes bs).length = 2 * bs.length := by
  induction bs with
  | nil => rfl
  | cons b bs ih =>
    show (hexOfBytes (b :: bs)).length = 2 * (b :: bs).length
    rw [show hexOfBytes (b :: bs)
          = [hexChar (b / 16), hexChar (b % 16)] ++ hexOfBytes bs from rfl]
    rw [List.length_append, ih]
    simp [List.length]
    omega

theorem sha256_length (msg : List Nat) : (sha256 msg).length = 32 := by
  rw [sha256]
  simp [wordBE]

theorem hashHost_length (host : String) : (hashHost host).length = 6 := by
  rw [hashHost, strMk_length, List.length_take, hexOfBytes_length, sha256_length]
  omega

theorem hashHost_chars {c : Char} {host : String} (h : c ∈ (hashHost host).data) :
    c ∈ hexDigitChars := by
  rw [hashHost] at h
  exact mem_of_mem_hexOfBytes (List.take_subset 6 _ h)

theorem utf8EncodeCharNat_ascii {n : Nat} (h : n < 128) : utf8EncodeCharNat n = [n] := by
  rw [utf8EncodeCharNat, if_pos h]

theorem utf8Bytes_ascii (cs : List Char) (h : ∀ c ∈ cs, c.toNat < 128) :
    utf8Bytes (String.mk cs) = cs.map Char.toNat := by
  induction cs with
  | nil => rfl
  | cons a as ih =>
    show utf8EncodeCharNat a.toNat ++ utf8Bytes (String.mk as) = a.toNat :: as.map Char.toNat
    rw [utf8EncodeCharNat_ascii (h a (List.mem_cons_self a as)),
        ih (fun c hc => h c (List.mem_cons_of_mem a hc))]
    rfl

theorem hexDigitChars_ascii : ∀ c ∈ hexDigitChars, c.toNat < 128 := by decide

theorem goHexOfString_hashHost_length (host : String) :
    (goHexOfString (hashHost host)).length = 12 := by
  rw [goHexOfString, strMk_length, hexOfBytes_length]
  have hh : utf8Bytes (hashHost host)
      = ((hexOfBytes (sha256 (utf8Bytes host))).take 6).map Char.toNat := by
    rw [show hashHost host = String.mk ((hexOfBytes (sha256 (utf8Bytes host))).take 6) from rfl]
    exact utf8Bytes_ascii _ (fun c hc =>
      hexDigitChars_ascii c (mem_of_mem_hexOfBytes (List.take_subset 6 _ hc)))
  rw [hh, List.length_map, List.length_take, hexOfBytes_length, sha256_length]
  omega

theorem goHexOfString_hashHost_hex (host : String) :
    ((goHexOfString (hashHost host)).data.all (fun c => decide (c ∈ hexDigitChars))) = true := by
  rw [List.all_eq_true]
  intro c hc
  rw [decide_eq_true_eq]
  exact mem_of_mem_hexOfBytes hc

/-! ### C1 -/

/-- C1 counterexample: the claim says `routeName` produces
`"route-<ownerID>-<t>"` with `<t>` exactly the first 6 hex characters of the
SHA-256 digest of the host (i.e. `hashHost host`, 6 characters).  At owner id
"abc123" and host "foo.example.com" the produced name differs from that: the
`%x` verb hex-encodes the 6-character `hashHost` string a second time, giving a
12-character suffix (length 25, not 19). -/
theorem c1_routeName_counterexample :
    routeName ("abc123") "foo.example.com" ≠ "route-abc123-" ++ hashHost ("foo.example.com") := by
  intro h
  have h1 : (routeName ("abc123") "foo.example.com").length = 25 := by
    rw [routeName, strLength_append, strLength_append, strLength_append,
        goHexOfString_hashHost_length]
    rfl
  have h2 : ("route-abc123-" ++ hashHost ("foo.example.com")).length = 19 := by
    rw [strLength_append, hashHost_length]
    rfl
  rw [h, h2] at h1
  exact absurd h1 (by decide)

/-- C1 amended: for every owner id and host, `routeName` returns
`"route-<ownerID>-<t>"` where `<t>` is the hex-encoding of the bytes of the
first 6 hex characters of the SHA-256 digest of the host — 12 hex characters,
not 6 (the inner `%x` of route.go:147 re-encodes the already-hex string
`hashHost host`). -/
theorem c1_routeName_amended (uid host : String) :
    routeName uid host = "route-" ++ uid ++ "-" ++ goHexOfString (hashHost host)
    ∧ hashHost host = String.mk ((hexOfBytes (sha256 (utf8Bytes host))).take 6)
    ∧ (goHexOfString (hashHost host)).length = 12
    ∧ ((goHexOfString (hashHost host)).data.all (fun c => decide (c ∈ hexDigitChars))) = true :=
  ⟨rfl, rfl, goHexOfString_hashHost_length host, goHexOfString_hashHost_hex host⟩

/-! ### Lemmas about makeRoute -/

theorem makeRoute_clusterLocal (dts : Nat) (ci : Ingress) (host : String) (rule : IngressRule)
    (h : rule.Visibility = IngressVisibilityClusterLocal) :
    makeRoute dts ci host rule = ((none, none), ci) := by
  rw [makeRoute, if_pos h]

theorem makeRoute_disabled (dts : Nat) (ci : Ingress) (host : String) (rule : IngressRule)
    (h : ((annotationsOrEmpty ci).get DisableRouteAnnotationKey).isSome = true) :
    makeRoute dts ci host rule = ((none, none), ci) := by
  by_cases hcl : rule.Visibility = IngressVisibilityClusterLocal
  · rw [makeRoute, if_pos hcl]
  · rw [makeRoute, if_neg hcl, if_pos h]

theorem makeRoute_notSkipped (dts : Nat) (ci : Ingress) (host : String) (rule : IngressRule)
    (hcl : rule.Visibility ≠ IngressVisibilityClusterLocal)
    (hdis : (annotationsOrEmpty ci).get DisableRouteAnnotationKey = none) :
    makeRoute dts ci host rule =
      if (resolveBackend ci.Status).1 = "" ∨ (resolveBackend ci.Status).2 = "" then
        ((none, some ErrNoValidLoadbalancerDomain),
          commitAnnotations ci (mutatedAnnotations dts ci rule))
      else
        ((some (newRoute ci host (mutatedAnnotations dts ci rule)
            (resolveBackend ci.Status).1 (resolveBackend ci.Status).2), none),
          commitAnnotations ci (mutatedAnnotations dts ci rule)) := by
  rw [makeRoute, if_neg hcl, hdis]
  rfl

theorem makeRoute_snd (dts : Nat) (ci : Ingress) (host : String) (rule : IngressRule) :
    (makeRoute dts ci host rule).2 = ci ∨
    (makeRoute dts ci host rule).2 = commitAnnotations ci (mutatedAnnotations dts ci rule) := by
  by_cases hcl : rule.Visibility = IngressVisibilityClusterLocal
  · left; rw [makeRoute_clusterLocal dts ci host rule hcl]
  · cases hdis : (annotationsOrEmpty ci).get DisableRouteAnnotationKey with
    | some v =>
      left
      rw [makeRoute_disabled dts ci host rule (by rw [hdis]; rfl)]
    | none =>
      right
      rw [makeRoute_notSkipped dts ci host rule hcl hdis]
      split <;> rfl

theorem makeRoute_some {dts : Nat} {ci : Ingress} {host : String} {rule : IngressRule} {r : Route}
    (h : (makeRoute dts ci host rule).1.1 = some r) :
    r = newRoute ci host (mutatedAnnotations dts ci rule)
          (resolveBackend ci.Status).1 (resolveBackend ci.Status).2
    ∧ (resolveBackend ci.Status).1 ≠ "" ∧ (resolveBackend ci.Status).2 ≠ ""
    ∧ rule.Visibility ≠ IngressVisibilityClusterLocal
    ∧ (annotationsOrEmpty ci).get DisableRouteAnnotationKey = none := by
  by_cases hcl : rule.Visibility = IngressVisibilityClusterLocal
  · rw [makeRoute_clusterLocal dts ci host rule hcl] at h
    cases h
  · cases hdis : (annotationsOrEmpty ci).get DisableRouteAnnotationKey with
    | some v =>
      rw [makeRoute_disabled dts ci host rule (by rw [hdis]; rfl)] at h
      cases h
    | none =>
      rw [makeRoute_notSkipped dts ci host rule hcl hdis] at h
      by_cases hres : (resolveBackend ci.Status).1 = "" ∨ (resolveBackend ci.Status).2 = ""
      · rw [if_pos hres] at h
        cases h
      · rw [if_neg hres] at h
        push_neg at hres
        have hr : newRoute ci host (mutatedAnnotations dts ci rule)
            (resolveBackend ci.Status).1 (resolveBackend ci.Status).2 = r := by
          exact Option.some.inj h
        exact ⟨hr.symm, hres.1, hres.2, hcl, rfl⟩

theorem makeRoute_error_iff (dts : Nat) (ci : Ingress) (host : String) (rule : IngressRule)
    (hcl : rule.Visibility ≠ IngressVisibilityClusterLocal)
    (hdis : (annotationsOrEmpty ci).get DisableRouteAnnotationKey = none) :
    (makeRoute dts ci host rule).1.2 = some ErrNoValidLoadbalancerDomain ↔
      ((resolveBackend ci.Status).1 = "" ∨ (resolveBackend ci.Status).2 = "") := by
  rw [makeRoute_notSkipped dts ci host rule hcl hdis]
  by_cases hres : (resolveBackend ci.Status).1 = "" ∨ (resolveBackend ci.Status).2 = ""
  · rw [if_pos hres]
    simpa using hres
  · rw [if_neg hres]
    simpa using hres

/-! ### Lemmas about the timeout-annotation loop -/

theorem applyTimeouts_cons (dts : Nat) (p : HTTPIngressPath) (ps : List HTTPIngressPath)
    (ann : SMap) :
    applyTimeouts dts (p :: ps) ann
      = applyTimeouts dts ps
          (match p.DeprecatedTimeout with
           | some d => ann.set TimeoutAnnotationKey (durationSecondsString d)
           | none => ann.set TimeoutAnnotationKey (defaultTimeout dts)) := rfl

theorem applyTimeouts_step (dts : Nat) (p : HTTPIngressPath) (ps : List HTTPIngressPath)
    (ann : SMap) :
    applyTimeouts dts (p :: ps) ann
      = applyTimeouts dts ps (ann.set TimeoutAnnotationKey (pathTimeoutString dts p)) := by
  rw [applyTimeouts_cons]
  cases p with
  | mk t =>
    cases t <;> rfl

theorem applyTimeouts_get_ne (dts : Nat) (paths : List HTTPIngressPath) (ann : SMap)
    (k : String) (hk : k ≠ TimeoutAnnotationKey) :
    (applyTimeouts dts paths ann).get k = ann.get k := by
  induction paths generalizing ann with
  | nil => rfl
  | cons p ps ih =>
    rw [applyTimeouts_step, ih, SMap.get_set_ne _ _ _ _ hk]

theorem applyTimeouts_getLast (dts : Nat) (paths : List HTTPIngressPath) (ann : SMap)
    (p : HTTPIngressPath) (h : paths.getLast? = some p) :
    applyTimeouts dts paths ann = ann.set TimeoutAnnotationKey (pathTimeoutString dts p) := by
  induction paths generalizing ann with
  | nil => cases h
  | cons x xs ih =>
    cases xs with
    | nil =>
      have hx : x = p := by
        simpa [List.getLast?] using h
      rw [applyTimeouts_step, hx]
      rfl
    | cons y rest =>
      rw [List.getLast?_cons_cons] at h
      rw [applyTimeouts_step, ih _ h, SMap.set_set_same]

/-! ### Refinement: the nested loops of MakeRoutes process exactly the
qualifying (rule, host) pairs, in order -/

theorem processHosts_cons (dts : Nat) (rule : IngressRule) (host : String) (hs : List String)
    (ci : Ingress) (routes : List Route) :
    processHosts dts rule (host :: hs) ci routes
      = if externalHost host then
          match makeRoute dts ci host rule with
          | ((_, some e), ci') => (.error e, ci')
          | ((none, none), ci') => processHosts dts rule hs ci' routes
          | ((some r, none), ci') => processHosts dts rule hs ci' (routes ++ [r])
        else processHosts dts rule hs ci routes := rfl

theorem runPairs_cons (dts : Nat) (p : IngressRule × String) (ps : List (IngressRule × String))
    (ci : Ingress) (routes : List Route) :
    runPairs dts (p :: ps) ci routes
      = match makeRoute dts ci p.2 p.1 with
        | ((_, some e), ci') => (.error e, ci')
        | ((none, none), ci') => runPairs dts ps ci' routes
        | ((some r, none), ci') => runPairs dts ps ci' (routes ++ [r]) := rfl

theorem processRules_cons (dts : Nat) (rule : IngressRule) (rs : List IngressRule)
    (ci : Ingress) (routes : List Route) :
    processRules dts (rule :: rs) ci routes
      = if rule.Visibility = IngressVisibilityClusterLocal then
          processRules dts rs ci routes
        else
          match processHosts dts rule rule.Hosts ci routes with
          | (.ok routes', ci') => processRules dts rs ci' routes'
          | (.error e, ci') => (.error e, ci') := rfl

theorem runPairs_cons_pair (dts : Nat) (rule : IngressRule) (host : String)
    (ps : List (IngressRule × String)) (ci : Ingress) (routes : List Route) :
    runPairs dts ((rule, host) :: ps) ci routes
      = match makeRoute dts ci host rule with
        | ((_, some e), ci') => (.error e, ci')
        | ((none, none), ci') => runPairs dts ps ci' routes
        | ((some r, none), ci') => runPairs dts ps ci' (routes ++ [r]) := rfl

theorem processHosts_eq_runPairs (dts : Nat) (rule : IngressRule) (hosts : List String) :
    ∀ ci routes,
      processHosts dts rule hosts ci routes
        = runPairs dts ((hosts.filter fun h => decide (externalHost h)).map fun h => (rule, h))
            ci routes := by
  induction hosts with
  | nil => intro ci routes; rfl
  | cons host hs ih =>
    intro ci routes
    rw [processHosts_cons]
    by_cases hx : externalHost host
    · rw [if_pos hx]
      have hfil : (host :: hs).filter (fun h => decide (externalHost h))
          = host :: hs.filter (fun h => decide (externalHost h)) := by
        simp [List.filter_cons, hx]
      rw [hfil, List.map_cons, runPairs_cons_pair]
      rcases hmk : makeRoute dts ci host rule with ⟨⟨r?, e?⟩, ci'⟩
      cases e? with
      | some e => cases r? <;> rfl
      | none =>
        cases r? with
        | none => exact ih ci' routes
        | some r => exact ih ci' (routes ++ [r])
    · rw [if_neg hx]
      have hfil : (host :: hs).filter (fun h => decide (externalHost h))
          = hs.filter (fun h => decide (externalHost h)) := by
        simp [List.filter_cons, hx]
      rw [hfil]
      exact ih ci routes

theorem runPairs_append (dts : Nat) (ps qs : List (IngressRule × String)) :
    ∀ ci routes,
      runPairs dts (ps ++ qs) ci routes
        = match runPairs dts ps ci routes with
          | (.ok routes', ci') => runPairs dts qs ci' routes'
          | (.error e, ci') => (.error e, ci') := by
  induction ps with
  | nil => intro ci routes; rfl
  | cons p ps ih =>
    intro ci routes
    rw [List.cons_append, runPairs_cons, runPairs_cons]
    rcases hmk : makeRoute dts ci p.2 p.1 with ⟨⟨r?, e?⟩, ci'⟩
    cases e? with
    | some e => cases r? <;> rfl
    | none =>
      cases r? with
      | none => exact ih ci' routes
      | some r => exact ih ci' (routes ++ [r])

theorem qualifyingPairs_cons_clusterLocal (rule : IngressRule) (rs : List IngressRule)
    (hcl : rule.Visibility = IngressVisibilityClusterLocal) :
    qualifyingPairs (rule :: rs) = qualifyingPairs rs := by
  show (if rule.Visibility = IngressVisibilityClusterLocal then []
        else (rule.Hosts.filter fun h => decide (externalHost h)).map fun h => (rule, h))
      ++ qualifyingPairs rs = qualifyingPairs rs
  rw [if_pos hcl, List.nil_append]

theorem qualifyingPairs_cons (rule : IngressRule) (rs : List IngressRule)
    (hcl : rule.Visibility ≠ IngressVisibilityClusterLocal) :
    qualifyingPairs (rule :: rs)
      = ((rule.Hosts.filter fun h => decide (externalHost h)).map fun h => (rule, h))
        ++ qualifyingPairs rs := by
  show (if rule.Visibility = IngressVisibilityClusterLocal then []
        else (rule.Hosts.filter fun h => decide (externalHost h)).map fun h => (rule, h))
      ++ qualifyingPairs rs = _
  rw [if_neg hcl]

theorem processRules_eq_runPairs (dts : Nat) (rules : List IngressRule) :
    ∀ ci routes,
      processRules dts rules ci routes = runPairs dts (qualifyingPairs rules) ci routes := by
  induction rules with
  | nil => intro ci routes; rfl
  | cons rule rs ih =>
    intro ci routes
    rw [processRules_cons]
    by_cases hcl : rule.Visibility = IngressVisibilityClusterLocal
    · rw [if_pos hcl, qualifyingPairs_cons_clusterLocal rule rs hcl]
      exact ih ci routes
    · rw [if_neg hcl, qualifyingPairs_cons rule rs hcl, runPairs_append,
          processHosts_eq_runPairs]
      rcases hph : runPairs dts
          ((rule.Hosts.filter fun h => decide (externalHost h)).map fun h => (rule, h))
          ci routes with ⟨res, ci'⟩
      cases res with
      | ok routes' => exact ih ci' routes'
      | error e => rfl

/-- `MakeRoutes` coincides with the spec-level reference implementation. -/
theorem makeRoutes_eq_spec (dts : Nat) (ci : Ingress) :
    MakeRoutes dts ci = makeRoutesSpec dts ci := by
  rw [MakeRoutes, makeRoutesSpec, processRules_eq_runPairs]

theorem qualifyingPairs_mem (rules : List IngressRule) (rule : IngressRule) (host : String) :
    (rule, host) ∈ qualifyingPairs rules ↔
      rule ∈ rules ∧ rule.Visibility ≠ IngressVisibilityClusterLocal
        ∧ host ∈ rule.Hosts ∧ externalHost host := by
  constructor
  · intro hp
    rcases List.mem_flatMap.mp hp with ⟨r, hr, hmem⟩
    by_cases hcl : r.Visibility = IngressVisibilityClusterLocal
    · rw [if_pos hcl] at hmem
      cases hmem
    · rw [if_neg hcl] at hmem
      rcases List.mem_map.mp hmem with ⟨h, hh, heq⟩
      have hre : r = rule := congrArg Prod.fst heq
      have hhe : h = host := congrArg Prod.snd heq
      subst hre
      subst hhe
      rcases List.mem_filter.mp hh with ⟨hh1, hh2⟩
      exact ⟨hr, hcl, hh1, of_decide_eq_true hh2⟩
  · rintro ⟨hr, hcl, hhost, hext⟩
    refine List.mem_flatMap.mpr ⟨rule, hr, ?_⟩
    rw [if_neg hcl]
    exact List.mem_map.mpr ⟨host, List.mem_filter.mpr ⟨hhost, decide_eq_true hext⟩, rfl⟩

theorem qualifyingPairs_external (rules : List IngressRule) :
    ∀ p ∈ qualifyingPairs rules, externalHost p.2 := by
  intro p hp
  rcases p with ⟨rule, host⟩
  exact (qualifyingPairs_mem rules rule host).mp hp |>.2.2.2

/-- route.go:119-143 field computations, read off `newRoute`. -/
theorem makeRoute_host {dts : Nat} {ci : Ingress} {host : String} {rule : IngressRule} {r : Route}
    (h : (makeRoute dts ci host rule).1.1 = some r) : r.Host = host := by
  rw [(makeRoute_some h).1]
  rfl

/-- Provenance of `runPairs` results: every collected route was already in the
accumulator or has the host of one of the processed pairs. -/
theorem runPairs_ok_mem (dts : Nat) (pairs : List (IngressRule × String)) :
    ∀ ci routes rs ci', runPairs dts pairs ci routes = (.ok rs, ci') →
      ∀ r ∈ rs, r ∈ routes ∨ ∃ p ∈ pairs, r.Host = p.2 := by
  induction pairs with
  | nil =>
    intro ci routes rs ci' h r hr
    left
    have : routes = rs := congrArg (fun x => x.1) h |> fun hh => by
      cases hh
      rfl
    rw [this]
    exact hr
  | cons p ps ih =>
    intro ci routes rs ci' h r hr
    rw [runPairs_cons] at h
    rcases hmk : makeRoute dts ci p.2 p.1 with ⟨⟨r?, e?⟩, cim⟩
    rw [hmk] at h
    cases e? with
    | some e => cases r? <;> cases h
    | none =>
      cases r? with
      | none =>
        rcases ih cim routes rs ci' h r hr with h1 | ⟨q, hq, hq2⟩
        · left; exact h1
        · right; exact ⟨q, List.mem_cons_of_mem p hq, hq2⟩
      | some r0 =>
        rcases ih cim (routes ++ [r0]) rs ci' h r hr with h1 | ⟨q, hq, hq2⟩
        · rcases List.mem_append.mp h1 with h2 | h2
          · left; exact h2
          · right
            refine ⟨p, List.mem_cons_self p ps, ?_⟩
            have hr0 : r = r0 := by simpa using h2
            rw [hr0]
            exact makeRoute_host (by rw [hmk])
        · right; exact ⟨q, List.mem_cons_of_mem p hq, hq2⟩

theorem annUpdateOnly_refl (ci : Ingress) : annUpdateOnly ci ci :=
  ⟨rfl, rfl, rfl, rfl, rfl, rfl, fun _ _ => rfl⟩

theorem annUpdateOnly_trans {a b c : Ingress}
    (h1 : annUpdateOnly a b) (h2 : annUpdateOnly b c) : annUpdateOnly a c := by
  obtain ⟨n1, u1, l1, s1, t1, a1, g1⟩ := h1
  obtain ⟨n2, u2, l2, s2, t2, a2, g2⟩ := h2
  exact ⟨n2.trans n1, u2.trans u1, l2.trans l1, s2.trans s1, t2.trans t1, a2.trans a1,
    fun k hk => (g2 k hk).trans (g1 k hk)⟩

theorem commitAnnotations_self (ci : Ingress) :
    commitAnnotations ci (annotationsOrEmpty ci) = ci := by
  cases ci with
  | mk n u l a s st =>
    cases a with
    | none => rfl
    | some m => rfl

theorem makeRoute_annUpdateOnly (dts : Nat) (ci : Ingress) (host : String) (rule : IngressRule) :
    annUpdateOnly ci (makeRoute dts ci host rule).2 := by
  rcases makeRoute_snd dts ci host rule with h | h
  · rw [h]; exact annUpdateOnly_refl ci
  · rw [h]
    unfold commitAnnotations
    by_cases hs : ci.Annotations.isSome = true
    · rw [if_pos hs]
      refine ⟨rfl, rfl, rfl, rfl, rfl, by simp [hs], ?_⟩
      intro k hk
      show (mutatedAnnotations dts ci rule).get k = (annotationsOrEmpty ci).get k
      unfold mutatedAnnotations
      cases hh : rule.HTTP with
      | none => rfl
      | some http => exact applyTimeouts_get_ne dts http.Paths _ k hk
    · rw [if_neg hs]
      exact annUpdateOnly_refl ci

theorem processHosts_annUpdateOnly (dts : Nat) (rule : IngressRule) (hosts : List String) :
    ∀ ci routes, annUpdateOnly ci (processHosts dts rule hosts ci routes).2 := by
  induction hosts with
  | nil => intro ci routes; exact annUpdateOnly_refl ci
  | cons host hs ih =>
    intro ci routes
    rw [processHosts_cons]
    by_cases hx : externalHost host
    · rw [if_pos hx]
      have hstep := makeRoute_annUpdateOnly dts ci host rule
      rcases hmk : makeRoute dts ci host rule with ⟨⟨r?, e?⟩, ci'⟩
      rw [hmk] at hstep
      cases e? with
      | some e => cases r? <;> exact hstep
      | none =>
        cases r? with
        | none => exact annUpdateOnly_trans hstep (ih ci' routes)
        | some r => exact annUpdateOnly_trans hstep (ih ci' (routes ++ [r]))
    · rw [if_neg hx]
      exact ih ci routes

theorem processRules_annUpdateOnly (dts : Nat) (rules : List IngressRule) :
    ∀ ci routes, annUpdateOnly ci (processRules dts rules ci routes).2 := by
  induction rules with
  | nil => intro ci routes; exact annUpdateOnly_refl ci
  | cons rule rs ih =>
    intro ci routes
    rw [processRules_cons]
    by_cases hcl : rule.Visibility = IngressVisibilityClusterLocal
    · rw [if_pos hcl]; exact ih ci routes
    · rw [if_neg hcl]
      have hstep := processHosts_annUpdateOnly dts rule rule.Hosts ci routes
      rcases hph : processHosts dts rule rule.Hosts ci routes with ⟨res, ci'⟩
      rw [hph] at hstep
      cases res with
      | ok routes' => exact annUpdateOnly_trans hstep (ih ci' routes')
      | error e => exact hstep

theorem makeRoutes_annUpdateOnly (dts : Nat) (ci : Ingress) :
    annUpdateOnly ci (MakeRoutes dts ci).2 := by
  rw [MakeRoutes]
  have hstep := processRules_annUpdateOnly dts ci.Spec.Rules ci []
  rcases hpr : processRules dts ci.Spec.Rules ci [] with ⟨res, ci'⟩
  rw [hpr] at hstep
  cases res with
  | ok routes => exact hstep
  | error e => exact hstep

/-! ### Skip-condition helpers -/

theorem processHosts_disabled (dts : Nat) (rule : IngressRule) (hosts : List String)
    (ci : Ingress) (routes : List Route)
    (hdis : ((annotationsOrEmpty ci).get DisableRouteAnnotationKey).isSome = true) :
    processHosts dts rule hosts ci routes = (.ok routes, ci) := by
  induction hosts with
  | nil => rfl
  | cons host hs ih =>
    rw [processHosts_cons]
    by_cases hx : externalHost host
    · rw [if_pos hx, makeRoute_disabled dts ci host rule hdis]
      exact ih
    · rw [if_neg hx]
      exact ih

theorem processRules_disabled (dts : Nat) (rules : List IngressRule)
    (ci : Ingress) (routes : List Route)
    (hdis : ((annotationsOrEmpty ci).get DisableRouteAnnotationKey).isSome = true) :
    processRules dts rules ci routes = (.ok routes, ci) := by
  induction rules with
  | nil => rfl
  | cons rule rs ih =>
    rw [processRules_cons]
    by_cases hcl : rule.Visibility = IngressVisibilityClusterLocal
    · rw [if_pos hcl]; exact ih
    · rw [if_neg hcl, processHosts_disabled dts rule rule.Hosts ci routes hdis]
      exact ih

theorem processRules_allClusterLocal (dts : Nat) (rules : List IngressRule)
    (ci : Ingress) (routes : List Route)
    (h : ∀ r ∈ rules, r.Visibility = IngressVisibilityClusterLocal) :
    processRules dts rules ci routes = (.ok routes, ci) := by
  induction rules with
  | nil => rfl
  | cons rule rs ih =>
    rw [processRules_cons, if_pos (h rule (List.mem_cons_self rule rs))]
    exact ih (fun r hr => h r (List.mem_cons_of_mem rule hr))

theorem processHosts_noExternal (dts : Nat) (rule : IngressRule) (hosts : List String)
    (ci : Ingress) (routes : List Route)
    (h : ∀ host ∈ hosts, ¬ externalHost host) :
    processHosts dts rule hosts ci routes = (.ok routes, ci) := by
  induction hosts with
  | nil => rfl
  | cons host hs ih =>
    rw [processHosts_cons, if_neg (h host (List.mem_cons_self host hs))]
    exact ih (fun h0 hh => h h0 (List.mem_cons_of_mem host hh))

theorem processRules_noExternal (dts : Nat) (rules : List IngressRule)
    (ci : Ingress) (routes : List Route)
    (h : ∀ rule ∈ rules, rule.Visibility ≠ IngressVisibilityClusterLocal →
      ∀ host ∈ rule.Hosts, ¬ externalHost host) :
    processRules dts rules ci routes = (.ok routes, ci) := by
  induction rules with
  | nil => rfl
  | cons rule rs ih =>
    rw [processRules_cons]
    by_cases hcl : rule.Visibility = IngressVisibilityClusterLocal
    · rw [if_pos hcl]
      exact ih (fun r hr => h r (List.mem_cons_of_mem rule hr))
    · rw [if_neg hcl,
          processHosts_noExternal dts rule rule.Hosts ci routes
            (h rule (List.mem_cons_self rule rs) hcl)]
      exact ih (fun r hr => h r (List.mem_cons_of_mem rule hr))

/-! ### C2 -/

/-- C2 counterexample: `makeRoute` (and hence `MakeRoutes`) is not
side-effect-free over the ingress.  For an ingress whose annotation map is
non-nil and a rule with an HTTP path, the timeout annotation is written into
the ingress's own annotation map in place — even though this very invocation
errors (no load balancer) — so the ingress does not hold the same key/value
pairs afterwards. -/
theorem c2_side_effect_counterexample :
    (makeRoute 600 c2Ci ("a.b.c") c2Rule).2 ≠ c2Ci
    ∧ (MakeRoutes 600 c2Ci).2 ≠ c2Ci
    ∧ (annotationsOrEmpty c2Ci).get TimeoutAnnotationKey = none
    ∧ (annotationsOrEmpty (makeRoute 600 c2Ci ("a.b.c") c2Rule).2).get TimeoutAnnotationKey
        = some ("600s") := by
  refine ⟨?_, ?_, ?_, ?_⟩ <;> decide

/-- C2 amended: `makeRoute` and `MakeRoutes` mutate nothing in the ingress
except (possibly) the timeout key of its non-nil annotation map: every other
field, the nil-ness of the map, and every other annotation key are unchanged;
when the annotation map is nil or the rule has no HTTP block, `makeRoute`
leaves the ingress entirely unchanged. -/
theorem c2_mutation_amended (dts : Nat) (ci : Ingress) (host : String) (rule : IngressRule) :
    annUpdateOnly ci (makeRoute dts ci host rule).2
    ∧ annUpdateOnly ci (MakeRoutes dts ci).2
    ∧ (ci.Annotations = none → (makeRoute dts ci host rule).2 = ci)
    ∧ (rule.HTTP = none → (makeRoute dts ci host rule).2 = ci) := by
  refine ⟨makeRoute_annUpdateOnly dts ci host rule, makeRoutes_annUpdateOnly dts ci, ?_, ?_⟩
  · intro hnil
    rcases makeRoute_snd dts ci host rule with h | h
    · exact h
    · rw [h]
      unfold commitAnnotations
      simp [hnil]
  · intro hhttp
    rcases makeRoute_snd dts ci host rule with h | h
    · exact h
    · rw [h]
      have hmut : mutatedAnnotations dts ci rule = annotationsOrEmpty ci := by
        unfold mutatedAnnotations
        rw [hhttp]
      rw [hmut, commitAnnotations_self]

/-- C2 witness for `c2_mutation_amended`. -/
theorem c2_mutation_witness :
    (annotationsOrEmpty (makeRoute 600 c2Ci ("a.b.c") c2Rule).2).get ("k")
      = (annotationsOrEmpty c2Ci).get ("k")
    ∧ (makeRoute 600 c2CiNil ("a.b.c") c2Rule).2 = c2CiNil := by
  constructor
  · exact (c2_mutation_amended 600 c2Ci ("a.b.c") c2Rule).1.2.2.2.2.2.2 ("k") (by decide)
  · exact (c2_mutation_amended 600 c2CiNil ("a.b.c") c2Rule).2.2.1 rfl

/-! ### C3 -/

/-- C3 counterexample: the claim's "error iff no endpoint yields both a
non-empty service name and a non-empty namespace" is false.  In `c3Ci` the
endpoint "a.b.svc.x" qualifies and yields the non-empty pair ("a", "b"), but a
later qualifying endpoint ".b.svc.x" wins the scan with an empty first
segment, so `makeRoute` returns `ErrNoValidLoadbalancerDomain` anyway. -/
theorem c3_error_iff_counterexample :
    (makeRoute 600 c3Ci ("h.example.com") c3Rule).1.2 = some ErrNoValidLoadbalancerDomain
    ∧ c3Ci.Status.PublicLoadBalancer = some ⟨[⟨"a.b.svc.x"⟩, ⟨".b.svc.x"⟩]⟩
    ∧ ((goSplitDot ("a.b.svc.x")).length > 2
        ∧ (goSplitDot ("a.b.svc.x")).getD 2 ("") = "svc"
        ∧ (goSplitDot ("a.b.svc.x")).getD 0 ("") = "a"
        ∧ (goSplitDot ("a.b.svc.x")).getD 1 ("") = "b") := by
  refine ⟨?_, ?_, ?_⟩ <;> decide

/-- C3 amended: the scan visits every endpoint without short-circuiting (an
endpoint appended at the end wins whenever it qualifies), the kourier example
resolves to ("kourier", "knative-serving-ingress"), and — when the rule is not
skipped — `makeRoute` returns `ErrNoValidLoadbalancerDomain` iff the service
name or namespace left by the scan (last qualifying endpoint wins) is empty,
in particular when no endpoint qualifies. -/
theorem c3_backend_resolution_amended (dts : Nat) (ci : Ingress) (host : String)
    (rule : IngressRule)
    (hcl : rule.Visibility ≠ IngressVisibilityClusterLocal)
    (hdis : (annotationsOrEmpty ci).get DisableRouteAnnotationKey = none) :
    ((makeRoute dts ci host rule).1.2 = some ErrNoValidLoadbalancerDomain ↔
      ((resolveBackend ci.Status).1 = "" ∨ (resolveBackend ci.Status).2 = ""))
    ∧ (∀ l e, resolveLB (l ++ [e]) =
        (if e.DomainInternal ≠ "" then
          if ((goSplitDot e.DomainInternal).length > 2
              ∧ (goSplitDot e.DomainInternal).getD 2 ("") = "svc") then
            ((goSplitDot e.DomainInternal).getD 0 (""), (goSplitDot e.DomainInternal).getD 1 (""))
          else resolveLB l
        else resolveLB l))
    ∧ resolveLB [⟨"kourier.knative-serving-ingress.svc.cluster.local"⟩]
        = ("kourier", "knative-serving-ingress") := by
  refine ⟨makeRoute_error_iff dts ci host rule hcl hdis, ?_, by decide⟩
  intro l e
  unfold resolveLB
  rw [List.foldl_append]
  rfl

/-- C3 witness for `c3_backend_resolution_amended`. -/
theorem c3_backend_resolution_witness :
    ¬ ((makeRoute 600 c3GoodCi ("h.example.com") c3Rule).1.2 = some ErrNoValidLoadbalancerDomain)
    ∧ resolveLB [⟨"kourier.knative-serving-ingress.svc.cluster.local"⟩]
        = ("kourier", "knative-serving-ingress") := by
  have h := c3_backend_resolution_amended 600 c3GoodCi ("h.example.com") c3Rule
    (by decide) (by decide)
  refine ⟨fun hc => ?_, h.2.2⟩
  have hres := h.1.mp hc
  revert hres
  decide

/-! ### C4 -/

/-- C4: `MakeRoutes` is fail-fast and all-or-nothing.  Its result is either
`(nil, first error)` or `(complete ordered route list, nil)`; the error case
holds exactly when the fail-fast fold over the qualifying (rule, host) pairs
hits an error — the same error — and the success case returns exactly the
routes that fold collects, in rule and host order. -/
theorem c4_fail_fast_all_or_nothing (dts : Nat) (ci : Ingress) :
    ((∃ e, (MakeRoutes dts ci).1 = (none, some e))
      ∨ (∃ rs, (MakeRoutes dts ci).1 = (some rs, none)))
    ∧ (∀ e, (MakeRoutes dts ci).1 = (none, some e) ↔
        (runPairs dts (qualifyingPairs ci.Spec.Rules) ci []).1 = .error e)
    ∧ (∀ rs, (MakeRoutes dts ci).1 = (some rs, none) ↔
        (runPairs dts (qualifyingPairs ci.Spec.Rules) ci []).1 = .ok rs) := by
  rw [makeRoutes_eq_spec, makeRoutesSpec]
  rcases h : runPairs dts (qualifyingPairs ci.Spec.Rules) ci [] with ⟨res, ci'⟩
  cases res with
  | ok rs =>
    refine ⟨Or.inr ⟨rs, rfl⟩, ?_, ?_⟩
    · intro e
      constructor
      · intro hh
        exact absurd (congrArg Prod.fst hh) (by simp)
      · intro hh
        exact Except.noConfusion hh
    · intro rs'
      constructor
      · intro hh
        have h1 : rs = rs' := by
          have := congrArg Prod.fst hh
          simpa using this
        rw [h1]
      · intro hh
        have h1 : rs = rs' := Except.ok.inj hh
        rw [h1]
  | error e =>
    refine ⟨Or.inl ⟨e, rfl⟩, ?_, ?_⟩
    · intro e'
      constructor
      · intro hh
        have h1 : e = e' := by
          have := congrArg Prod.snd hh
          simpa using this
        rw [h1]
      · intro hh
        have h1 : e = e' := Except.error.inj hh
        rw [h1]
    · intro rs'
      constructor
      · intro hh
        exact absurd (congrArg Prod.fst hh) (by simp)
      · intro hh
        exact Except.noConfusion hh

/-! ### Shared helpers for the output-exclusion claims -/

theorem makeRoute_nil_unchanged (dts : Nat) (ci : Ingress) (host : String) (rule : IngressRule)
    (hnil : ci.Annotations = none) : (makeRoute dts ci host rule).2 = ci := by
  rcases makeRoute_snd dts ci host rule with h | h
  · exact h
  · rw [h]
    unfold commitAnnotations
    simp [hnil]

theorem makeRoutes_output_external (dts : Nat) (ci : Ingress) (rs : List Route)
    (hrs : (MakeRoutes dts ci).1.1 = some rs) : ∀ r ∈ rs, externalHost r.Host := by
  intro r hr
  rw [makeRoutes_eq_spec, makeRoutesSpec] at hrs
  rcases hrp : runPairs dts (qualifyingPairs ci.Spec.Rules) ci [] with ⟨res, ci'⟩
  rw [hrp] at hrs
  cases res with
  | error e => simp at hrs
  | ok rs' =>
    have hr' : rs' = rs := by simpa using hrs
    subst hr'
    rcases runPairs_ok_mem dts (qualifyingPairs ci.Spec.Rules) ci [] rs' ci' hrp r hr with
      h1 | ⟨p, hp, hph⟩
    · cases h1
    · rw [hph]
      exact qualifyingPairs_external ci.Spec.Rules p hp

/-! ### C5 -/

/-- C5: `MakeRoutes` equals the spec-level pipeline that runs the route
factory exactly over the qualifying (rule, host) pairs; a pair qualifies iff
its rule is a non-cluster-local rule of the ingress and the host's dot-split
has more than two segments with third segment not "svc"; consequently every
route in the output has such a host (hosts whose third segment is "svc" are
excluded). -/
theorem c5_external_filter (dts : Nat) (ci : Ingress) :
    MakeRoutes dts ci = makeRoutesSpec dts ci
    ∧ (∀ rule host, (rule, host) ∈ qualifyingPairs ci.Spec.Rules ↔
        (rule ∈ ci.Spec.Rules ∧ rule.Visibility ≠ IngressVisibilityClusterLocal
          ∧ host ∈ rule.Hosts
          ∧ (goSplitDot host).length > 2 ∧ (goSplitDot host).getD 2 ("") ≠ "svc"))
    ∧ (∀ rs, (MakeRoutes dts ci).1.1 = some rs →
        ∀ r ∈ rs, (goSplitDot r.Host).length > 2 ∧ (goSplitDot r.Host).getD 2 ("") ≠ "svc") := by
  refine ⟨makeRoutes_eq_spec dts ci, ?_, ?_⟩
  · intro rule host
    exact qualifyingPairs_mem ci.Spec.Rules rule host
  · intro rs hrs r hr
    exact makeRoutes_output_external dts ci rs hrs r hr

/-- C5 witness for `c5_external_filter`. -/
theorem c5_external_filter_witness :
    (c5Rule, "a.b.c") ∈ qualifyingPairs c5Ci.Spec.Rules
    ∧ ¬ ((c5Rule, "m.n.svc.x") ∈ qualifyingPairs c5Ci.Spec.Rules)
    ∧ ¬ ((c5Rule, "x.y") ∈ qualifyingPairs c5Ci.Spec.Rules) := by
  have h := c5_external_filter 600 c5Ci
  refine ⟨(h.2.1 c5Rule ("a.b.c")).mpr (by decide), fun hc => ?_, fun hc => ?_⟩
  · have hm := (h.2.1 c5Rule ("m.n.svc.x")).mp hc
    revert hm
    decide
  · have hm := (h.2.1 c5Rule ("x.y")).mp hc
    revert hm
    decide

/-! ### C6 -/

/-- C6: skip conditions are not errors.  A cluster-local rule or a
disable-marker annotation makes `makeRoute` return the skip signal
`(nil, nil)` with the ingress unchanged, and under either condition
`MakeRoutes` produces the empty route list with a nil error. -/
theorem c6_skip_conditions (dts : Nat) (ci : Ingress) (host : String) (rule : IngressRule) :
    (rule.Visibility = IngressVisibilityClusterLocal →
      makeRoute dts ci host rule = ((none, none), ci))
    ∧ (((annotationsOrEmpty ci).get DisableRouteAnnotationKey).isSome = true →
      makeRoute dts ci host rule = ((none, none), ci))
    ∧ ((∀ r ∈ ci.Spec.Rules, r.Visibility = IngressVisibilityClusterLocal) →
      MakeRoutes dts ci = ((some [], none), ci))
    ∧ (((annotationsOrEmpty ci).get DisableRouteAnnotationKey).isSome = true →
      MakeRoutes dts ci = ((some [], none), ci)) := by
  refine ⟨makeRoute_clusterLocal dts ci host rule, makeRoute_disabled dts ci host rule, ?_, ?_⟩
  · intro h
    rw [MakeRoutes, processRules_allClusterLocal dts ci.Spec.Rules ci [] h]
  · intro h
    rw [MakeRoutes, processRules_disabled dts ci.Spec.Rules ci [] h]

/-- C6 witness for `c6_skip_conditions`. -/
theorem c6_skip_conditions_witness :
    makeRoute 600 c6CiCL ("w.x.y") c6RuleCL = ((none, none), c6CiCL)
    ∧ MakeRoutes 600 c6CiCL = ((some [], none), c6CiCL)
    ∧ makeRoute 600 c6CiDis ("w.x.y") c6RuleCL = ((none, none), c6CiDis)
    ∧ MakeRoutes 600 c6CiDis = ((some [], none), c6CiDis) := by
  exact ⟨(c6_skip_conditions 600 c6CiCL ("w.x.y") c6RuleCL).1 rfl,
         (c6_skip_conditions 600 c6CiCL ("w.x.y") c6RuleCL).2.2.1 (by decide),
         (c6_skip_conditions 600 c6CiDis ("w.x.y") c6RuleCL).2.1 (by decide),
         (c6_skip_conditions 600 c6CiDis ("w.x.y") c6RuleCL).2.2.2 (by decide)⟩

/-! ### C7 -/

/-- C7: when the rule declares HTTP paths, the produced route's timeout
annotation (key "haproxy.router.openshift.io/timeout") is the value
contributed by the last processed path — `"<seconds>s"` from the path's
deprecated timeout duration when present, otherwise the process-wide default
string from the configured default max revision timeout.  (Durations are
assumed to be whole seconds, where the embedding of Go's float formatting is
exact.) -/
theorem c7_timeout_value (dts : Nat) (ci : Ingress) (host : String) (rule : IngressRule)
    (hv : HTTPIngressRuleValue) (p : HTTPIngressPath) (r : Route)
    (hhttp : rule.HTTP = some hv) (hlast : hv.Paths.getLast? = some p)
    (hws : ∀ q ∈ hv.Paths, q.DeprecatedTimeout.getD 0 % 1000000000 = 0)
    (hr : (makeRoute dts ci host rule).1.1 = some r) :
    TimeoutAnnotationKey = "haproxy.router.openshift.io/timeout"
    ∧ r.Annotations.get TimeoutAnnotationKey = some (pathTimeoutString dts p)
    ∧ pathTimeoutString dts p
        = (match p.DeprecatedTimeout with
           | some d => toString (d / 1000000000) ++ "s"
           | none => toString dts ++ "s") := by
  refine ⟨rfl, ?_, ?_⟩
  · rw [(makeRoute_some hr).1]
    show (mutatedAnnotations dts ci rule).get TimeoutAnnotationKey = _
    unfold mutatedAnnotations
    rw [hhttp]
    show (applyTimeouts dts hv.Paths (annotationsOrEmpty ci)).get TimeoutAnnotationKey = _
    rw [applyTimeouts_getLast dts hv.Paths _ p hlast, SMap.get_set_same]
  · cases p with
    | mk t => cases t <;> rfl

/-- C7 witness for `c7_timeout_value`: a 600-second path duration produces the
annotation value "600s". -/
theorem c7_timeout_value_witness :
    (makeRoute 600 c7Ci ("a.b.c") c7Rule).1.1.map (fun r => r.Annotations.get TimeoutAnnotationKey)
      = some (some ("600s")) := by
  have hr : (makeRoute 600 c7Ci ("a.b.c") c7Rule).1.1 = some c7Route := rfl
  have h := c7_timeout_value 600 c7Ci ("a.b.c") c7Rule c7Hv ⟨some 600000000000⟩ c7Route
    rfl rfl (by decide) hr
  rw [hr]
  rw [show Option.map (fun r => r.Annotations.get TimeoutAnnotationKey) (some c7Route)
      = some (c7Route.Annotations.get TimeoutAnnotationKey) from rfl]
  exact congrArg some h.2.1

/-! ### C8 -/

/-- C8: every route `makeRoute` produces has the resolved namespace, the input
host, a Service backend with the resolved service name and weight 100, edge
TLS termination with insecure traffic allowed, wildcard policy none, the named
target port "http2", and labels equal to the ingress's labels overlaid with
the well-known ingress-name label (which wins on collision). -/
theorem c8_route_fields (dts : Nat) (ci : Ingress) (host : String) (rule : IngressRule)
    (r : Route) (hr : (makeRoute dts ci host rule).1.1 = some r) :
    r.Namespace = (resolveBackend ci.Status).2
    ∧ r.Host = host
    ∧ r.To = ⟨"Service", (resolveBackend ci.Status).1, some 100⟩
    ∧ r.TLS = some ⟨TLSTerminationEdge, InsecureEdgeTerminationPolicyAllow⟩
    ∧ r.WildcardPolicy = WildcardPolicyNone
    ∧ r.Port = some ⟨KourierHTTPPort⟩
    ∧ (∀ k, r.Labels.get k = if k = IngressLabelKey then some ci.Name else ci.Labels.get k) := by
  rw [(makeRoute_some hr).1]
  refine ⟨rfl, rfl, rfl, rfl, rfl, rfl, ?_⟩
  intro k
  show (unionMaps ci.Labels [(IngressLabelKey, ci.Name)]).get k = _
  rw [show unionMaps ci.Labels [(IngressLabelKey, ci.Name)]
      = ci.Labels.set IngressLabelKey ci.Name from rfl]
  by_cases hk : k = IngressLabelKey
  · rw [if_pos hk, hk, SMap.get_set_same]
  · rw [if_neg hk, SMap.get_set_ne _ _ _ _ hk]

/-- C8 witness for `c8_route_fields`: the spec's end-to-end example — ingress
"abc123", host "foo.example.com", load-balancer domain
"kourier.ns.svc.cluster.local" — yields namespace "ns", backend Service
"kourier" weight 100, edge/allow TLS, wildcard none, port "http2", and labels
with the ingress-name label added. -/
theorem c8_route_fields_witness :
    (makeRoute 600 c8Ci ("foo.example.com") c8Rule).1.1.map
        (fun r => (r.Namespace, r.Host, r.To, r.TLS, r.WildcardPolicy, r.Port,
                   r.Labels.get IngressLabelKey, r.Labels.get ("app")))
      = some ("ns", "foo.example.com", ⟨"Service", "kourier", some 100⟩,
              some ⟨"edge", "Allow"⟩, "None", some ⟨"http2"⟩, some ("ing8"), some ("demo")) := by
  have hr : (makeRoute 600 c8Ci ("foo.example.com") c8Rule).1.1 = some c8Route := rfl
  have h := c8_route_fields 600 c8Ci ("foo.example.com") c8Rule c8Route hr
  rw [hr]
  rw [show Option.map
        (fun r => (r.Namespace, r.Host, r.To, r.TLS, r.WildcardPolicy, r.Port,
                   r.Labels.get IngressLabelKey, r.Labels.get ("app"))) (some c8Route)
      = some (c8Route.Namespace, c8Route.Host, c8Route.To, c8Route.TLS, c8Route.WildcardPolicy,
              c8Route.Port, c8Route.Labels.get IngressLabelKey, c8Route.Labels.get ("app"))
      from rfl]
  rw [h.1, h.2.1, h.2.2.1, h.2.2.2.1, h.2.2.2.2.1, h.2.2.2.2.2.1,
      h.2.2.2.2.2.2 IngressLabelKey, h.2.2.2.2.2.2 ("app")]
  rfl

/-! ### C9 -/

/-- C9: with a nil annotation map `makeRoute` does not fail on account of the
map: it behaves exactly as with a fresh empty map (same route, same error),
leaves the ingress untouched, and a produced route's annotations then hold
exactly the timeout key (with the last path's value) when the rule declares
HTTP paths, and nothing at all when it declares none. -/
theorem c9_nil_annotations (dts : Nat) (ci : Ingress) (host : String) (rule : IngressRule)
    (hnil : ci.Annotations = none) :
    (makeRoute dts ci host rule).2 = ci
    ∧ (makeRoute dts ci host rule).1
        = (makeRoute dts { ci with Annotations := some [] } host rule).1
    ∧ (∀ r hv p, (makeRoute dts ci host rule).1.1 = some r → rule.HTTP = some hv →
        hv.Paths.getLast? = some p →
        r.Annotations = [(TimeoutAnnotationKey, pathTimeoutString dts p)])
    ∧ (∀ r, (makeRoute dts ci host rule).1.1 = some r → rule.HTTP = none →
        r.Annotations = []) := by
  have hann : annotationsOrEmpty ci = [] := by
    rw [annotationsOrEmpty, hnil]
    rfl
  refine ⟨makeRoute_nil_unchanged dts ci host rule hnil, ?_, ?_, ?_⟩
  · by_cases hcl : rule.Visibility = IngressVisibilityClusterLocal
    · rw [makeRoute_clusterLocal dts ci host rule hcl,
          makeRoute_clusterLocal dts { ci with Annotations := some [] } host rule hcl]
    · have hd1 : (annotationsOrEmpty ci).get DisableRouteAnnotationKey = none := by
        rw [hann]
        rfl
      have hd2 : (annotationsOrEmpty { ci with Annotations := some [] }).get
          DisableRouteAnnotationKey = none := rfl
      rw [makeRoute_notSkipped dts ci host rule hcl hd1,
          makeRoute_notSkipped dts { ci with Annotations := some [] } host rule hcl hd2]
      have hst : ({ ci with Annotations := some [] } : Ingress).Status = ci.Status := rfl
      rw [hst]
      have hmut : mutatedAnnotations dts { ci with Annotations := some [] } rule
          = mutatedAnnotations dts ci rule := by
        unfold mutatedAnnotations
        rw [hann]
        rfl
      rw [hmut]
      have hnr : newRoute { ci with Annotations := some [] } host
            (mutatedAnnotations dts ci rule)
            (resolveBackend ci.Status).1 (resolveBackend ci.Status).2
          = newRoute ci host (mutatedAnnotations dts ci rule)
            (resolveBackend ci.Status).1 (resolveBackend ci.Status).2 := rfl
      rw [hnr]
      split <;> rfl
  · intro r hv p hr hhttp hlast
    rw [(makeRoute_some hr).1]
    show mutatedAnnotations dts ci rule = _
    unfold mutatedAnnotations
    rw [hhttp]
    show applyTimeouts dts hv.Paths (annotationsOrEmpty ci) = _
    rw [hann, applyTimeouts_getLast dts hv.Paths [] p hlast]
    rfl
  · intro r hr hhttp
    rw [(makeRoute_some hr).1]
    show mutatedAnnotations dts ci rule = []
    unfold mutatedAnnotations
    rw [hhttp]
    exact hann

/-- C9 witness for `c9_nil_annotations`: a nil-annotation ingress is returned
unchanged and the produced route's annotations hold exactly the timeout key
(the second, timeout-less path wins, contributing the default "600s"). -/
theorem c9_nil_annotations_witness :
    (makeRoute 600 c9Ci ("a.b.c") c9Rule).2 = c9Ci
    ∧ (makeRoute 600 c9Ci ("a.b.c") c9Rule).1.1.map (fun r => r.Annotations)
        = some [(TimeoutAnnotationKey, "600s")] := by
  have h := c9_nil_annotations 600 c9Ci ("a.b.c") c9Rule rfl
  have hr : (makeRoute 600 c9Ci ("a.b.c") c9Rule).1.1 = some c9Route := rfl
  refine ⟨h.1, ?_⟩
  rw [hr]
  rw [show Option.map (fun r => r.Annotations) (some c9Route) = some c9Route.Annotations
      from rfl]
  rw [h.2.2.1 c9Route c9Hv ⟨none⟩ hr rfl rfl]
  rfl

/-! ### C10 -/

/-- C10: hosts whose dot-split has two or fewer segments (such as apex domains
like "foo.com") are silently excluded: no produced route ever has such a host,
and an ingress whose non-cluster-local rules carry only such hosts yields the
empty route list with a nil error and an unchanged ingress. -/
theorem c10_short_hosts (dts : Nat) (ci : Ingress) :
    (∀ rs, (MakeRoutes dts ci).1.1 = some rs →
      ∀ r ∈ rs, ¬ (goSplitDot r.Host).length ≤ 2)
    ∧ ((∀ rule ∈ ci.Spec.Rules, rule.Visibility ≠ IngressVisibilityClusterLocal →
          ∀ host ∈ rule.Hosts, (goSplitDot host).length ≤ 2) →
        MakeRoutes dts ci = ((some [], none), ci)) := by
  constructor
  · intro rs hrs r hr
    have hext := makeRoutes_output_external dts ci rs hrs r hr
    have h1 : (goSplitDot r.Host).length > 2 := hext.1
    omega
  · intro h
    rw [MakeRoutes, processRules_noExternal dts ci.Spec.Rules ci []
      (fun rule hrule hcl host hhost hext => by
        have h1 : (goSplitDot host).length ≤ 2 := h rule hrule hcl host hhost
        have h2 : (goSplitDot host).length > 2 := hext.1
        omega)]

/-- C10 witness for `c10_short_hosts`: an ingress whose sole host is the apex
domain "foo.com" yields the empty route list, no error, and no mutation. -/
theorem c10_short_hosts_witness :
    MakeRoutes 600 c10Ci = ((some [], none), c10Ci)
    ∧ ¬ (goSplitDot c10Route.Host).length ≤ 2 := by
  have h := c10_short_hosts 600 c10Ci
  have hmix := c10_short_hosts 600 c10CiMix
  have hrs : (MakeRoutes 600 c10CiMix).1.1 = some [c10Route] := rfl
  exact ⟨h.2 (by decide), hmix.1 [c10Route] hrs c10Route (List.mem_cons_self c10Route [])⟩

end RouteGo
